import Mathlib

/-
Verification of the YieldCurve repository (TypeScript sources) against its
natural-language specification.

Shallow embedding conventions:
  * JavaScript numbers are modelled as exact rationals (ℚ).  Numeric literals
    such as 1e-8 are the exact rationals 1/100000000.
  * JavaScript arrays are Lean lists.  Reading an array out of bounds yields
    `undefined` in JavaScript; where the sources only read in bounds we model
    element access with `List.getD` (default 0), and data tables that may hold
    missing / non-finite entries use `Option ℚ` cells (`none` models a cell on
    which `isFinite` is false: NaN, undefined or absent).
  * Division by zero is total in both worlds; ℚ yields 0 where JavaScript
    yields ±Infinity/NaN.  No claim below depends on a divergent case except
    where explicitly noted next to the definition.
  * Gradient output vectors (filled through out-parameters in the sources) are
    modelled as functions ℕ → ℚ read pointwise.
  * External library routines that are not part of this repository
    (numeric.js `solve`, `Math.log`) are taken as parameters.
  * Fallible code returns `Except`; `throw` is `Except.error`.
-/

set_option maxHeartbeats 1000000

namespace YieldCurve

/-! ## PanelData.ts

A data table (`PanelData`) is stored row-major: one row per observation
(historical date), one column per variable, as produced by `toPanelData` and
consumed by `diff`.  A cell is `none` when the stored value is not a finite
number (`isFinite` returns false on it). -/

abbrev Table := List (List (Option ℚ))

/-- Reading cell `table[i][k]`: out-of-range reads give `undefined`, modelled
as `none`. -/
def tableCell (table : Table) (i k : ℕ) : Option ℚ :=
  (table.getD i []).getD k none

/-- Source `numRows` (no rownames in the embedding): `table.length`. -/
def numRowsT (table : Table) : ℕ := table.length

/-- Source `numCols` (no colnames in the embedding): length of the first row. -/
def numColsT (table : Table) : ℕ := (table.getD 0 []).length

/-- The accumulation loop of `covariance` for one pair `(i, j)`:
`for (k = 0; k < nobs; k++) { x = table[i][k]; y = table[j][k]; if finite both:
sumX += x; sumY += y; sumXY += x*y; count += 1 }`.
Returns `(sumX, sumY, sumXY, count)`.  Note the source indexes `table[i][k]`
and `table[j][k]` — `i`, `j` are used as row indices and `k` as a column
index. -/
def covStats (table : Table) (i j : ℕ) : ℚ × ℚ × ℚ × ℚ :=
  (List.range (numRowsT table)).foldl
    (fun acc k =>
      match tableCell table i k, tableCell table j k with
      | some x, some y => (acc.1 + x, acc.2.1 + y, acc.2.2.1 + x * y, acc.2.2.2 + 1)
      | _, _ => acc)
    (0, 0, 0, 0)

/-- Source `const c = (sumXY - sumX * sumY / count) / (count - 1)` for the
pair `(i, j)`.  (With `count ∈ {0, 1}` JavaScript yields NaN where ℚ yields 0;
no claim is decided on such a pair.) -/
def covPair (table : Table) (i j : ℕ) : ℚ :=
  let s := covStats table i j
  (s.2.2.1 - s.1 * s.2.1 / s.2.2.2) / (s.2.2.2 - 1)

/-- The pairs `(i, j)` visited by the double loop
`for (i = 0..nvar-1) for (j = i..nvar-1)`, in order. -/
def covPairList (nvar : ℕ) : List (ℕ × ℕ) :=
  (List.range nvar).flatMap (fun i => ((List.range nvar).drop i).map (fun j => (i, j)))

/-- One body of the double loop: `C[i][j] = c; C[j][i] = c;` on the matrix
(modelled as a total function, initially the zero-filled allocation). -/
def covWrite (table : Table) (M : ℕ → ℕ → ℚ) (ij : ℕ × ℕ) : ℕ → ℕ → ℚ :=
  fun a b =>
    if (a = ij.1 ∧ b = ij.2) ∨ (a = ij.2 ∧ b = ij.1) then covPair table ij.1 ij.2
    else M a b

/-- Source `covariance(table)`: allocates an `nvar × nvar` matrix and fills
entry `(i, j)` and its mirror `(j, i)` with the same computed value for every
`0 ≤ i ≤ j < nvar`. -/
def covariance (table : Table) : ℕ → ℕ → ℚ :=
  (covPairList (numColsT table)).foldl (covWrite table) (fun _ _ => 0)

/-- Modelled from the spec (for comparison with `covariance`): the unbiased
sample covariance of columns `i` and `j` of the table — one variable per
column, one observation per row — over exactly those observation rows `k` in
which both variables are finite, divided by `count - 1`. -/
def covarianceSpec (table : Table) (i j : ℕ) : ℚ :=
  let s := (List.range (numRowsT table)).foldl
    (fun acc k =>
      match tableCell table k i, tableCell table k j with
      | some x, some y => (acc.1 + x, acc.2.1 + y, acc.2.2.1 + x * y, acc.2.2.2 + 1)
      | _, _ => acc)
    ((0 : ℚ), (0 : ℚ), (0 : ℚ), (0 : ℚ))
  (s.2.2.1 - s.1 * s.2.1 / s.2.2.2) / (s.2.2.2 - 1)

/-- Source `diff(table, 1)` on a fully numeric table:
`data[i] = numeric.sub(table[i+1], table[i])` for `i < nobs - 1`. -/
def diffTable (table : List (List ℚ)) : List (List ℚ) :=
  (List.range (table.length - 1)).map
    (fun i => List.zipWith (· - ·) (table.getD (i + 1) []) (table.getD i []))

/-! Symmetry of `covariance` (claim C9). -/

lemma covWrite_symm (table : Table) (M : ℕ → ℕ → ℚ) (ij : ℕ × ℕ)
    (hM : ∀ a b, M a b = M b a) (a b : ℕ) :
    covWrite table M ij a b = covWrite table M ij b a := by
  unfold covWrite
  by_cases h : (a = ij.1 ∧ b = ij.2) ∨ (a = ij.2 ∧ b = ij.1)
  · rw [if_pos h, if_pos (Or.symm (h.imp And.symm And.symm))]
  · rw [if_neg h, if_neg (fun hc => h (Or.symm (hc.imp And.symm And.symm))), hM]

lemma covFold_symm (table : Table) (ps : List (ℕ × ℕ)) (M : ℕ → ℕ → ℚ)
    (hM : ∀ a b, M a b = M b a) (a b : ℕ) :
    (ps.foldl (covWrite table) M) a b = (ps.foldl (covWrite table) M) b a := by
  induction ps generalizing M with
  | nil => exact hM a b
  | cons q ps ih =>
      exact ih (covWrite table M q) (covWrite_symm table M q hM)

/-- C9.  For every input table, the matrix returned by `covariance` is exactly
symmetric: entry `(i, j)` equals entry `(j, i)`, because the loop assigns the
same computed value to both. -/
theorem covariance_symm (table : Table) (i j : ℕ) :
    covariance table i j = covariance table j i := by
  unfold covariance
  exact covFold_symm table (covPairList (numColsT table)) (fun _ _ => 0)
    (fun _ _ => rfl) i j

/-! Claim C2: the covariance estimator.  The callers store the table row-major
(one observation row per historical date — see `diffTable` and the calibration
loop), but the accumulation loop reads `table[i][k]`/`table[j][k]` with `i`,
`j` variable indices and `k` the observation index, i.e. transposed.  On the
3-observation, 2-variable table `[[1,2],[2,4],[4,8]]` the code produces entry
`(0,1) = 1` where the column covariance of the spec is `14/3`. -/

/-- C2.  On the table with observation rows `[1,2]`, `[2,4]`, `[4,8]` the
implemented `covariance` yields `1` at entry `(0,1)` while the specified
unbiased column covariance over observation rows yields `14/3`: the code reads
the table transposed. -/
theorem covariance_transposed_bug :
    covariance [[some 1, some 2], [some 2, some 4], [some 4, some 8]] 0 1 = 1 ∧
    covarianceSpec [[some 1, some 2], [some 2, some 4], [some 4, some 8]] 0 1 = 14 / 3 ∧
    (1 : ℚ) ≠ 14 / 3 := by
  refine ⟨?_, ?_, by norm_num⟩
  · norm_num [covariance, covPairList, numColsT, covWrite, covPair, covStats,
      numRowsT, tableCell, List.range_succ]
  · norm_num [covarianceSpec, numRowsT, tableCell, List.range_succ]

/-! ## BSpline.ts (class `BSpline`, second revision)

The knot vector is a Lean list of rationals; `knotD xs i` is `xs[i]` with the
out-of-range default 0 (all uses below stay in range).  `BSpline.N` is the
static member `N(i, p, xs, x)` and `BSpline.evaluate` the member
`evaluate(x)` specialised to derivative order 0 (the order used by the
claims); its `order` argument, being fixed to 0, always passes the
`0 ≤ order ≤ p` check. -/

def knotD (xs : List ℚ) (i : ℕ) : ℚ := xs.getD i 0

/-- Cox–de Boor recursion of `BSpline.N(i, p, xs, x)`.  Degree 0 follows the
source branch order: multiplicity knot first, then the half-open interval,
then the right-continuity special case at the last knot. -/
def BSpline.N (xs : List ℚ) (x : ℚ) : ℕ → ℕ → ℚ
  | 0, i =>
      if knotD xs i = knotD xs (i + 1) then 0
      else if knotD xs i ≤ x ∧ x < knotD xs (i + 1) then 1
      else if x = knotD xs (i + 1) ∧ x = knotD xs (xs.length - 1) then 1
      else 0
  | q + 1, i =>
      let w1 : ℚ :=
        if knotD xs (i + (q + 1)) = knotD xs i then 0
        else (x - knotD xs i) / (knotD xs (i + (q + 1)) - knotD xs i)
      let w2 : ℚ :=
        if knotD xs (i + 1 + (q + 1)) = knotD xs (i + 1) then 0
        else (x - knotD xs (i + 1)) / (knotD xs (i + 1 + (q + 1)) - knotD xs (i + 1))
      w1 * BSpline.N xs x q i + (1 - w2) * BSpline.N xs x q (i + 1)

/-- Member `evaluate(x)` (order 0): checks `x` against
`[xs[0], xs[m]]` with `m = n - 1 - p`, then returns the vector of all
`m` basis values. -/
def BSpline.evaluate (xs : List ℚ) (p : ℕ) (x : ℚ) : Except String (List ℚ) :=
  let m := xs.length - 1 - p
  if knotD xs 0 ≤ x ∧ x ≤ knotD xs m then
    Except.ok ((List.range m).map (fun i => BSpline.N xs x p i))
  else Except.error "x is outside the range covered by this spline."

/-- The constructor checks of class `BSpline` (`addMultiKnots = false`): at
least 2 knots, degree at least 1 and at most `knots - 1`; the stored knot
vector is sorted (the constructor sorts its copy). -/
def BSpline.wellFormed (xs : List ℚ) (p : ℕ) : Prop :=
  2 ≤ xs.length ∧ 1 ≤ p ∧ p ≤ xs.length - 1 ∧ xs.Sorted (· ≤ ·)

instance (xs : List ℚ) (p : ℕ) : Decidable (BSpline.wellFormed xs p) := by
  unfold BSpline.wellFormed; infer_instance

/-- C7.  The degree-0 basis is 0 on a multiplicity knot (`xs[i] = xs[i+1]`);
otherwise it is 1 on `[xs[i], xs[i+1])`, is 1 in the special case
`x = xs[i+1]` when `xs[i+1]` is the final knot, and is 0 everywhere else. -/
theorem bspline_N_deg0 (xs : List ℚ) (x : ℚ) (i : ℕ) :
    BSpline.N xs x 0 i =
      if knotD xs i = knotD xs (i + 1) then 0
      else if knotD xs i ≤ x ∧ x < knotD xs (i + 1) then 1
      else if x = knotD xs (i + 1) ∧ knotD xs (i + 1) = knotD xs (xs.length - 1) then 1
      else 0 := by
  show (if knotD xs i = knotD xs (i + 1) then (0 : ℚ)
      else if knotD xs i ≤ x ∧ x < knotD xs (i + 1) then 1
      else if x = knotD xs (i + 1) ∧ x = knotD xs (xs.length - 1) then 1
      else 0) = _
  by_cases h1 : knotD xs i = knotD xs (i + 1)
  · simp [h1]
  · by_cases h2 : knotD xs i ≤ x ∧ x < knotD xs (i + 1)
    · simp [h1, h2]
    · by_cases h3 : x = knotD xs (i + 1)
      · simp only [if_neg h1, if_neg h2]
        by_cases h4 : x = knotD xs (xs.length - 1)
        · rw [if_pos ⟨h3, h4⟩, if_pos ⟨h3, h3 ▸ h4⟩]
        · rw [if_neg (fun hc => h4 hc.2), if_neg (fun hc => h4 (h3 ▸ hc.2))]
      · simp [h1, h2, h3]

/-- C8 counterexample.  The basis family over knots `[0,1,2]` with degree 1 is
validly constructed, and `x = 1/2` is strictly inside `[knot 0, knot last) =
[0, 2)`, yet `evaluate` returns the single component `1/2`, whose sum is not
1: without multiplicity end knots the partition of unity fails. -/
theorem bspline_partition_counterexample :
    BSpline.wellFormed [0, 1, 2] 1 ∧
    knotD [0, 1, 2] 0 ≤ 1 / 2 ∧ (1 / 2 : ℚ) < knotD [0, 1, 2] 2 ∧
    BSpline.evaluate [0, 1, 2] 1 (1 / 2) = Except.ok [1 / 2] ∧
    ([(1 / 2 : ℚ)].sum ≠ 1) := by
  refine ⟨by decide, by norm_num [knotD], by norm_num [knotD], ?_, by norm_num⟩
  norm_num [BSpline.evaluate, BSpline.N, knotD, List.range_succ]

/-! Partition of unity for clamped knot vectors (amended claim C8). -/

/-- Helper: `xs.getD` agrees with indexed access in range. -/
lemma knotD_eq_getElem (xs : List ℚ) (i : ℕ) (h : i < xs.length) :
    knotD xs i = xs[i] := by
  rw [knotD, List.getD_eq_getElem?_getD, List.getElem?_eq_getElem h, Option.getD_some]

/-- Helper: a sorted knot list is monotone under `knotD` within range. -/
lemma knotD_mono (xs : List ℚ) (hsort : xs.Sorted (· ≤ ·)) {i j : ℕ}
    (hij : i ≤ j) (hj : j < xs.length) : knotD xs i ≤ knotD xs j := by
  have hi : i < xs.length := Nat.lt_of_le_of_lt hij hj
  rw [knotD_eq_getElem xs i hi, knotD_eq_getElem xs j hj]
  rcases Nat.lt_or_ge i j with h | h
  · exact List.pairwise_iff_getElem.mp hsort i j hi hj h
  · have : i = j := Nat.le_antisymm hij h
    subst this; exact le_rfl

/-- Helper: list-sum versus `Finset`-sum over an initial range. -/
lemma range_map_sum (f : ℕ → ℚ) (n : ℕ) :
    ((List.range n).map f).sum = ∑ i in Finset.range n, f i := by
  induction n with
  | zero => simp
  | succ n ih =>
      rw [List.range_succ, Finset.sum_range_succ, List.map_append, List.sum_append, ih]
      simp

/-- A basis whose entire support lies on coincident knots vanishes
identically: every degree-0 constituent hits the multiplicity-knot branch. -/
lemma N_eq_zero_of_flat (xs : List ℚ) (x : ℚ) :
    ∀ q i, (∀ j, i ≤ j → j ≤ i + q → knotD xs j = knotD xs (j + 1)) →
      BSpline.N xs x q i = 0 := by
  intro q
  induction q with
  | zero =>
      intro i h
      simp [BSpline.N, h i le_rfl (Nat.le_refl i)]
  | succ q ih =>
      intro i h
      have h0 : BSpline.N xs x q i = 0 :=
        ih i (fun j hj hj' => h j hj (Nat.le_trans hj' (by omega)))
      have h1 : BSpline.N xs x q (i + 1) = 0 :=
        ih (i + 1) (fun j hj hj' => h j (by omega) (by omega))
      show _ * BSpline.N xs x q i + _ * BSpline.N xs x q (i + 1) = 0
      rw [h0, h1]; ring

/-- The weight `w1` of the Cox–de Boor step for degree `d`, basis `i`. -/
def Nw (xs : List ℚ) (x : ℚ) (d i : ℕ) : ℚ :=
  if knotD xs (i + d) = knotD xs i then 0
  else (x - knotD xs i) / (knotD xs (i + d) - knotD xs i)

/-- The recursion step of `BSpline.N` written with `Nw` (the second weight of
basis `i` is the first weight of basis `i + 1`). -/
lemma N_succ (xs : List ℚ) (x : ℚ) (q i : ℕ) :
    BSpline.N xs x (q + 1) i =
      Nw xs x (q + 1) i * BSpline.N xs x q i +
        (1 - Nw xs x (q + 1) (i + 1)) * BSpline.N xs x q (i + 1) := rfl

/-- Below the final knot, the degree-0 basis is the indicator of
`[xs[i], xs[i+1])`. -/
lemma N_deg0_indicator (xs : List ℚ) (x : ℚ) (i : ℕ)
    (hxlast : x < knotD xs (xs.length - 1)) :
    BSpline.N xs x 0 i = if knotD xs i ≤ x ∧ x < knotD xs (i + 1) then 1 else 0 := by
  have hne : x ≠ knotD xs (xs.length - 1) := ne_of_lt hxlast
  by_cases h1 : knotD xs i = knotD xs (i + 1)
  · have hno : ¬(knotD xs i ≤ x ∧ x < knotD xs (i + 1)) := by
      rintro ⟨ha, hb⟩; rw [h1] at ha; exact absurd hb (not_lt.mpr ha)
    rw [if_neg hno]
    simp [BSpline.N, h1]
  · by_cases h2 : knotD xs i ≤ x ∧ x < knotD xs (i + 1)
    · simp [BSpline.N, h1, h2]
    · have h3 : ¬(x = knotD xs (i + 1) ∧ x = knotD xs (xs.length - 1)) :=
        fun hc => hne hc.2
      simp [BSpline.N, h1, h2, h3]

/-- Degree 0 partition of unity: below the final knot exactly one degree-0
basis is 1 (the unique knot span containing `x`), all others are 0. -/
lemma N_sum_deg0 (xs : List ℚ) (x : ℚ) (hsort : xs.Sorted (· ≤ ·))
    (hlen : 2 ≤ xs.length)
    (hx0 : knotD xs 0 ≤ x) (hxlast : x < knotD xs (xs.length - 1)) :
    ∑ i in Finset.range (xs.length - 1), BSpline.N xs x 0 i = 1 := by
  set n := xs.length with hn
  obtain ⟨i0, hi0⟩ : ∃ i0, i0 = Nat.findGreatest (fun i => knotD xs i ≤ x) (n - 2) :=
    ⟨_, rfl⟩
  have hP0 : knotD xs 0 ≤ x := hx0
  have hmem : i0 ≤ n - 2 := by rw [hi0]; exact Nat.findGreatest_le (n - 2)
  have hspec : knotD xs i0 ≤ x := by
    have h := @Nat.findGreatest_spec 0 (fun i => knotD xs i ≤ x) _ (n - 2)
      (Nat.zero_le (n - 2)) hP0
    rw [← hi0] at h
    exact h
  have hup : x < knotD xs (i0 + 1) := by
    rcases Nat.lt_or_ge i0 (n - 2) with hlt | hge
    · have hkk : Nat.findGreatest (fun i => knotD xs i ≤ x) (n - 2) < i0 + 1 := by
        rw [← hi0]; exact Nat.lt_succ_self i0
      have hnot : ¬ knotD xs (i0 + 1) ≤ x :=
        @Nat.findGreatest_is_greatest (i0 + 1) (fun i => knotD xs i ≤ x) _ (n - 2)
          hkk (by omega)
      exact lt_of_not_le hnot
    · have heq : i0 + 1 = n - 1 := by omega
      rw [heq]; exact hxlast
  have hterm : ∀ b ∈ Finset.range (n - 1), b ≠ i0 → BSpline.N xs x 0 b = 0 := by
    intro b hb hbne
    rw [N_deg0_indicator xs x b hxlast, if_neg]
    rintro ⟨hba, hbb⟩
    rcases Nat.lt_or_ge b i0 with hlt | hge
    · have hle : knotD xs (b + 1) ≤ knotD xs i0 :=
        knotD_mono xs hsort (by omega) (by omega)
      exact absurd (lt_of_lt_of_le hbb (le_trans hle hspec)) (lt_irrefl x)
    · have hbgt : i0 < b := lt_of_le_of_ne hge (fun hc => hbne hc.symm)
      have hble : b ≤ n - 2 := by
        have : b < n - 1 := Finset.mem_range.mp hb
        omega
      have hkk : Nat.findGreatest (fun i => knotD xs i ≤ x) (n - 2) < b := by
        rw [← hi0]; exact hbgt
      exact absurd hba
        (@Nat.findGreatest_is_greatest b (fun i => knotD xs i ≤ x) _ (n - 2) hkk hble)
  have hval : BSpline.N xs x 0 i0 = 1 := by
    rw [N_deg0_indicator xs x i0 hxlast, if_pos ⟨hspec, hup⟩]
  calc ∑ i in Finset.range (n - 1), BSpline.N xs x 0 i
      = BSpline.N xs x 0 i0 :=
        Finset.sum_eq_single i0 hterm
          (fun hni => absurd (Finset.mem_range.mpr (by omega)) hni)
    _ = 1 := hval

/-- Partition of unity at every degree `q`, provided the first and last
`q + 1` knots coincide (clamped ends). -/
lemma N_sum_eq_one (xs : List ℚ) (x : ℚ) (hsort : xs.Sorted (· ≤ ·))
    (hx0 : knotD xs 0 ≤ x) (hxlast : x < knotD xs (xs.length - 1)) :
    ∀ q, q + 2 ≤ xs.length →
      (∀ j < q + 1, knotD xs j = knotD xs 0) →
      (∀ j < q + 1, knotD xs (xs.length - 1 - j) = knotD xs (xs.length - 1)) →
      ∑ i in Finset.range (xs.length - 1 - q), BSpline.N xs x q i = 1 := by
  intro q
  induction q with
  | zero =>
      intro hlen _ _
      simpa using N_sum_deg0 xs x hsort (by omega) hx0 hxlast
  | succ q ih =>
      intro hlen hhead htail
      set n := xs.length with hn
      set M := n - 1 - (q + 1) with hM
      have hq3 : q + 3 ≤ n := hlen
      -- the two extreme degree-q bases vanish on the clamped ends
      have htailflat : ∀ j, M ≤ j → j ≤ n - 1 → knotD xs j = knotD xs (n - 1) := by
        intro j hj hj'
        have hrep : j = n - 1 - (n - 1 - j) := by omega
        rw [hrep]
        exact htail (n - 1 - j) (by omega)
      have hN0 : BSpline.N xs x q 0 = 0 := by
        apply N_eq_zero_of_flat
        intro j hj hj'
        rw [hhead j (by omega), hhead (j + 1) (by omega)]
      have hNM : BSpline.N xs x q M = 0 := by
        apply N_eq_zero_of_flat
        intro j hj hj'
        rw [htailflat j hj (by omega), htailflat (j + 1) (by omega) (by omega)]
      have hsum1 : ∑ i in Finset.range (M + 1), BSpline.N xs x q i = 1 := by
        have hM1 : M + 1 = n - 1 - q := by omega
        rw [hM1]
        exact ih (by omega) (fun j hj => hhead j (by omega))
          (fun j hj => htail j (by omega))
      calc ∑ i in Finset.range M, BSpline.N xs x (q + 1) i
          = ∑ i in Finset.range M,
              (Nw xs x (q + 1) i * BSpline.N xs x q i +
               (1 - Nw xs x (q + 1) (i + 1)) * BSpline.N xs x q (i + 1)) :=
            Finset.sum_congr rfl (fun i _ => N_succ xs x q i)
        _ = (∑ i in Finset.range M, Nw xs x (q + 1) i * BSpline.N xs x q i) +
            ∑ i in Finset.range M,
              (1 - Nw xs x (q + 1) (i + 1)) * BSpline.N xs x q (i + 1) :=
            Finset.sum_add_distrib
        _ = (∑ i in Finset.range (M + 1), Nw xs x (q + 1) i * BSpline.N xs x q i) +
            ∑ i in Finset.range (M + 1), (1 - Nw xs x (q + 1) i) * BSpline.N xs x q i := by
            rw [Finset.sum_range_succ _ M, hNM,
              Finset.sum_range_succ' (fun i => (1 - Nw xs x (q + 1) i) * BSpline.N xs x q i) M,
              hN0]
            ring
        _ = ∑ i in Finset.range (M + 1),
              (Nw xs x (q + 1) i * BSpline.N xs x q i +
               (1 - Nw xs x (q + 1) i) * BSpline.N xs x q i) :=
            Finset.sum_add_distrib.symm
        _ = ∑ i in Finset.range (M + 1), BSpline.N xs x q i :=
            Finset.sum_congr rfl (fun i _ => by ring)
        _ = 1 := hsum1

/-- C8 (amended).  For a validly constructed basis whose knot vector is
clamped — the first `degree + 1` and last `degree + 1` knots coincide, as the
constructor's `addMultiKnots` option produces — and any `x` with
`knot[0] ≤ x < knot[last]`, `evaluate(x)` succeeds and its components sum to
exactly 1. -/
theorem bspline_partition_of_unity (xs : List ℚ) (p : ℕ) (x : ℚ)
    (hw : BSpline.wellFormed xs p)
    (hlen : p + 2 ≤ xs.length)
    (hhead : ∀ j < p + 1, knotD xs j = knotD xs 0)
    (htail : ∀ j < p + 1, knotD xs (xs.length - 1 - j) = knotD xs (xs.length - 1))
    (hx0 : knotD xs 0 ≤ x) (hxlast : x < knotD xs (xs.length - 1)) :
    BSpline.evaluate xs p x =
      Except.ok ((List.range (xs.length - 1 - p)).map (fun i => BSpline.N xs x p i)) ∧
    ((List.range (xs.length - 1 - p)).map (fun i => BSpline.N xs x p i)).sum = 1 := by
  have hsort : xs.Sorted (· ≤ ·) := hw.2.2.2
  constructor
  · unfold BSpline.evaluate
    rw [if_pos]
    refine ⟨hx0, ?_⟩
    have : knotD xs (xs.length - 1 - p) = knotD xs (xs.length - 1) :=
      htail p (Nat.lt_succ_self p)
    rw [this]
    exact le_of_lt hxlast
  · rw [range_map_sum]
    exact N_sum_eq_one xs x hsort hx0 hxlast p hlen hhead htail

/-- Witness for the amended C8 on the clamped knot vector `[0,0,1,1]`,
degree 1, at `x = 1/2`. -/
theorem bspline_partition_of_unity_witness :
    (BSpline.wellFormed [0, 0, 1, 1] 1 ∧
     1 + 2 ≤ ([0, 0, 1, 1] : List ℚ).length ∧
     (∀ j < 1 + 1, knotD [0, 0, 1, 1] j = knotD [0, 0, 1, 1] 0) ∧
     (∀ j < 1 + 1, knotD [0, 0, 1, 1] (([0, 0, 1, 1] : List ℚ).length - 1 - j) =
        knotD [0, 0, 1, 1] (([0, 0, 1, 1] : List ℚ).length - 1)) ∧
     knotD [0, 0, 1, 1] 0 ≤ 1 / 2 ∧
     (1 / 2 : ℚ) < knotD [0, 0, 1, 1] (([0, 0, 1, 1] : List ℚ).length - 1)) ∧
    (BSpline.evaluate [0, 0, 1, 1] 1 (1 / 2) =
      Except.ok ((List.range (([0, 0, 1, 1] : List ℚ).length - 1 - 1)).map
        (fun i => BSpline.N [0, 0, 1, 1] (1 / 2) 1 i)) ∧
     ((List.range (([0, 0, 1, 1] : List ℚ).length - 1 - 1)).map
        (fun i => BSpline.N [0, 0, 1, 1] (1 / 2) 1 i)).sum = 1) := by
  have h1 : BSpline.wellFormed [0, 0, 1, 1] 1 := by decide
  have h2 : 1 + 2 ≤ ([0, 0, 1, 1] : List ℚ).length := by norm_num
  have h3 : ∀ j < 1 + 1, knotD [0, 0, 1, 1] j = knotD [0, 0, 1, 1] 0 := by decide
  have h4 : ∀ j < 1 + 1, knotD [0, 0, 1, 1] (([0, 0, 1, 1] : List ℚ).length - 1 - j) =
      knotD [0, 0, 1, 1] (([0, 0, 1, 1] : List ℚ).length - 1) := by decide
  have h5 : knotD [0, 0, 1, 1] 0 ≤ (1 / 2 : ℚ) := by norm_num [knotD]
  have h6 : (1 / 2 : ℚ) < knotD [0, 0, 1, 1] (([0, 0, 1, 1] : List ℚ).length - 1) := by
    norm_num [knotD]
  exact ⟨⟨h1, h2, h3, h4, h5, h6⟩,
    bspline_partition_of_unity [0, 0, 1, 1] 1 (1 / 2) h1 h2 h3 h4 h5 h6⟩

/-! ## Instruments.ts

A discount function hands back a factor together with its gradient with
respect to the model state (the out-parameter of the source), modelled as a
pair.  `Math.log` is an external built-in and is taken as a parameter `log`.
The four variants contain no `throw` whatsoever; their codomain is
nevertheless wrapped in `Except DomainError` so that the spec's claimed
failure mode is expressible: every path below ends in `Except.ok`. -/

abbrev DiscountFn := ℚ → ℚ × (ℕ → ℚ)

inductive DomainError where
  | domainError
deriving DecidableEq

/-- Source `Fra.impliedRate`: `df = discount(T, deriv); fraRate = -log(df)/T;
muleq(deriv, -1/(T*df))`. -/
def Fra.impliedRate (log : ℚ → ℚ) (T : ℚ) (discount : DiscountFn) :
    Except DomainError (ℚ × (ℕ → ℚ)) :=
  let df := (discount T).1
  let deriv := (discount T).2
  Except.ok (-(log df) / T, fun i => deriv i * (-1 / (T * df)))

/-- Source `LogDf.impliedRate`: `df = discount(T, deriv);
muleq(deriv, -1/df); return -log(df)`. -/
def LogDf.impliedRate (log : ℚ → ℚ) (T : ℚ) (discount : DiscountFn) :
    Except DomainError (ℚ × (ℕ → ℚ)) :=
  let df := (discount T).1
  let deriv := (discount T).2
  Except.ok (-(log df), fun i => deriv i * (-1 / df))

/-- Source `InstFwd.impliedRate`: centred difference of `LogDf` at `T` and
`T - 1/128`, both value and gradient divided by `dt = 1/128`. -/
def InstFwd.impliedRate (log : ℚ → ℚ) (T : ℚ) (discount : DiscountFn) :
    Except DomainError (ℚ × (ℕ → ℚ)) := do
  let dt : ℚ := 1 / 128
  let vEnd ← LogDf.impliedRate log T discount
  let vStart ← LogDf.impliedRate log (T - dt) discount
  Except.ok ((vEnd.1 - vStart.1) / dt, fun i => (vEnd.2 i - vStart.2 i) / dt)

/-- The accrual loop of `Swap.impliedRate`:
`for (t = T; t > 0; t -= 0.25) { df = discount(t, dfDeriv);
accrualFactor = min(0.25, t); annuityFactor += accrualFactor * df;
annuityFactorDeriv += accrualFactor * dfDeriv }`.
Returns the pair (annuityFactor, annuityFactorDeriv). -/
def Swap.annuity (discount : DiscountFn) (t : ℚ) : ℚ × (ℕ → ℚ) :=
  if h : 0 < t then
    let df := (discount t).1
    let dfDeriv := (discount t).2
    let accrualFactor := min (1 / 4) t
    let rest := Swap.annuity discount (t - 1 / 4)
    (accrualFactor * df + rest.1, fun i => rest.2 i + accrualFactor * dfDeriv i)
  else (0, fun _ => 0)
  termination_by (⌈4 * t⌉).toNat
  decreasing_by
    have h4 : (4 : ℚ) * (t - 1 / 4) = 4 * t - 1 := by ring
    rw [h4, Int.ceil_sub_one]
    have hp : 0 < ⌈(4 : ℚ) * t⌉ := Int.ceil_pos.mpr (by linarith)
    omega

/-- Source `Swap.impliedRate`: `finalDf = discount(T, finalDfDeriv)`, the
accrual loop, `swapRate = (1 - finalDf)/annuityFactor`, and
`swapRateDeriv = (-1/annuityFactor) * (finalDfDeriv + swapRate *
annuityFactorDeriv)` (the quotient rule). -/
def Swap.impliedRate (T : ℚ) (discount : DiscountFn) :
    Except DomainError (ℚ × (ℕ → ℚ)) :=
  let finalDf := (discount T).1
  let finalDfDeriv := (discount T).2
  let ann := Swap.annuity discount T
  let swapRate := (1 - finalDf) / ann.1
  Except.ok (swapRate, fun i => -1 / ann.1 * (finalDfDeriv i + swapRate * ann.2 i))

/-- The number of accrual dates visited by the loop from `t` backwards. -/
def Swap.steps (t : ℚ) : ℕ := (⌈4 * t⌉).toNat

lemma Swap.steps_pos_iff (t : ℚ) : 0 < Swap.steps t ↔ 0 < t := by
  unfold Swap.steps
  constructor
  · intro h
    by_contra hneg
    push_neg at hneg
    have : ⌈(4 : ℚ) * t⌉ ≤ (0 : ℤ) := Int.ceil_le.mpr (by push_cast; linarith)
    omega
  · intro h
    have : 0 < ⌈(4 : ℚ) * t⌉ := Int.ceil_pos.mpr (by linarith)
    omega

lemma Swap.steps_pred (t : ℚ) (h : 0 < t) :
    Swap.steps (t - 1 / 4) = Swap.steps t - 1 := by
  unfold Swap.steps
  have h4 : (4 : ℚ) * (t - 1 / 4) = 4 * t - 1 := by ring
  rw [h4, Int.ceil_sub_one]
  have hp : 0 < ⌈(4 : ℚ) * t⌉ := Int.ceil_pos.mpr (by linarith)
  omega

/-- The annuity accumulated by the loop equals the closed-form sum over the
accrual dates `T, T - 1/4, T - 2/4, …` (those strictly above 0), in both the
value and every gradient component. -/
lemma Swap.annuity_eq_sum (discount : DiscountFn) (t : ℚ) :
    (Swap.annuity discount t).1 =
      ∑ k in Finset.range (Swap.steps t),
        min (1 / 4) (t - k / 4) * (discount (t - k / 4)).1 ∧
    ∀ n, (Swap.annuity discount t).2 n =
      ∑ k in Finset.range (Swap.steps t),
        min (1 / 4) (t - k / 4) * (discount (t - k / 4)).2 n := by
  obtain ⟨s, hs⟩ : ∃ s, s = Swap.steps t := ⟨_, rfl⟩
  induction s generalizing t with
  | zero =>
      have ht : ¬ 0 < t := by
        rw [← Swap.steps_pos_iff]
        omega
      rw [Swap.annuity, dif_neg ht, ← hs]
      simp
  | succ s ih =>
      have ht : 0 < t := by
        rw [← Swap.steps_pos_iff]
        omega
      have hpred : s = Swap.steps (t - 1 / 4) := by
        rw [Swap.steps_pred t ht]; omega
      obtain ⟨ihv, ihd⟩ := ih (t - 1 / 4) hpred
      have hshift : ∀ k : ℕ, (t - 1 / 4) - (k : ℚ) / 4 = t - (k + 1 : ℕ) / 4 := by
        intro k
        push_cast
        ring
      rw [Swap.annuity, dif_pos ht, ← hs]
      constructor
      · show min (1 / 4) t * (discount t).1 + (Swap.annuity discount (t - 1 / 4)).1 = _
        rw [ihv, ← hpred, Finset.sum_range_succ'
          (fun k => min (1 / 4) (t - (k : ℚ) / 4) * (discount (t - (k : ℚ) / 4)).1) s]
        have hz : t - (0 : ℕ) / 4 = t := by push_cast; ring
        rw [hz]
        have hcg : ∀ k ∈ Finset.range s,
            min (1 / 4) ((t - 1 / 4) - (k : ℚ) / 4) * (discount ((t - 1 / 4) - (k : ℚ) / 4)).1 =
            min (1 / 4) (t - ((k + 1 : ℕ) : ℚ) / 4) * (discount (t - ((k + 1 : ℕ) : ℚ) / 4)).1 := by
          intro k _
          rw [hshift k]
        rw [Finset.sum_congr rfl hcg]
        ring
      · intro n
        show (Swap.annuity discount (t - 1 / 4)).2 n + min (1 / 4) t * (discount t).2 n = _
        rw [ihd n, ← hpred, Finset.sum_range_succ'
          (fun k => min (1 / 4) (t - (k : ℚ) / 4) * (discount (t - (k : ℚ) / 4)).2 n) s]
        have hz : t - (0 : ℕ) / 4 = t := by push_cast; ring
        rw [hz]
        have hcg : ∀ k ∈ Finset.range s,
            min (1 / 4) ((t - 1 / 4) - (k : ℚ) / 4) * (discount ((t - 1 / 4) - (k : ℚ) / 4)).2 n =
            min (1 / 4) (t - ((k + 1 : ℕ) : ℚ) / 4) * (discount (t - ((k + 1 : ℕ) : ℚ) / 4)).2 n := by
          intro k _
          rw [hshift k]
        rw [Finset.sum_congr rfl hcg]

/-- The closed-form annuity: the sum of `min(1/4, t) · df(t)` over the accrual
dates `t = T, T - 1/4, …` strictly above 0. -/
def Swap.annuitySum (discount : DiscountFn) (T : ℚ) : ℚ :=
  ∑ k in Finset.range (Swap.steps T),
    min (1 / 4) (T - k / 4) * (discount (T - k / 4)).1

/-- The closed-form accumulated gradient of the annuity, component `n`. -/
def Swap.annuityGradSum (discount : DiscountFn) (T : ℚ) (n : ℕ) : ℚ :=
  ∑ k in Finset.range (Swap.steps T),
    min (1 / 4) (T - k / 4) * (discount (T - k / 4)).2 n

/-- C6.  For a swap of maturity `T > 0` and any discount function, the implied
rate is `(1 - df(T)) / annuity` with `annuity = Σ min(1/4, t)·df(t)` over the
accrual dates `t = T - k/4 > 0` stepping backwards from `T`, and each gradient
component follows the quotient rule
`-(dfGrad(T)ₙ + rate · annuityGradₙ) / annuity` with the annuity gradient
accumulated over the same accrual dates. -/
theorem swap_impliedRate_spec (discount : DiscountFn) (T : ℚ) (hT : 0 < T) :
    Swap.impliedRate T discount =
      Except.ok
        ((1 - (discount T).1) / Swap.annuitySum discount T,
         fun n =>
           -1 / Swap.annuitySum discount T *
             ((discount T).2 n +
              (1 - (discount T).1) / Swap.annuitySum discount T *
                Swap.annuityGradSum discount T n)) := by
  obtain ⟨hv, hd⟩ := Swap.annuity_eq_sum discount T
  have hv' : (Swap.annuity discount T).1 = Swap.annuitySum discount T := hv
  show Except.ok
      ((1 - (discount T).1) / (Swap.annuity discount T).1,
       fun n =>
         -1 / (Swap.annuity discount T).1 *
           ((discount T).2 n +
            (1 - (discount T).1) / (Swap.annuity discount T).1 *
              (Swap.annuity discount T).2 n)) = _
  rw [hv']
  refine congrArg Except.ok (congrArg (Prod.mk _) ?_)
  funext n
  rw [hd n]
  rfl

/-- Witness for C6: a concrete two-period swap (`T = 1/2`) against the
discount function `df(t) = 1 - t/10` with gradient `(t, 0, 0, …)`. -/
def dfWitness : DiscountFn := fun t => (1 - t / 10, fun i => if i = 0 then t else 0)

theorem swap_impliedRate_spec_witness :
    (0 : ℚ) < 1 / 2 ∧
    Swap.impliedRate (1 / 2) dfWitness =
      Except.ok
        ((1 - (dfWitness (1 / 2)).1) / Swap.annuitySum dfWitness (1 / 2),
         fun n =>
           -1 / Swap.annuitySum dfWitness (1 / 2) *
             ((dfWitness (1 / 2)).2 n +
              (1 - (dfWitness (1 / 2)).1) / Swap.annuitySum dfWitness (1 / 2) *
                Swap.annuityGradSum dfWitness (1 / 2) n)) :=
  ⟨by norm_num, swap_impliedRate_spec dfWitness (1 / 2) (by norm_num)⟩

/-! Claim C5: no instrument variant checks its maturity.  None of the four
`impliedRate` implementations contains a `throw`; for `maturity ≤ 0` they
still produce a numeric result instead of a `DomainError`. -/

/-- C5 counterexample.  A `Fra` (zero-coupon) instrument with maturity `-1`,
evaluated against the constant discount function 1 (where `Math.log 1 = 0`),
returns the numeric implied rate 0 — it does not fail with a `DomainError`
although `maturity() ≤ 0`. -/
theorem instrument_no_maturity_check_cx :
    ((-1 : ℚ) ≤ 0) ∧
    (Fra.impliedRate (fun _ => 0) (-1) (fun _ => (1, fun _ => 0))).toOption.map Prod.fst =
      some 0 := by
  constructor
  · norm_num
  · show some (-(0 : ℚ) / (-1)) = some 0
    norm_num

/-- C5 (amended).  For every maturity `T ≤ 0`, every discount function and
every logarithm, each of the four instrument variants (`LogDf`, `Fra`,
`InstFwd`, `Swap`) returns a numeric implied rate (`Except.ok`); no
`DomainError` is ever raised. -/
theorem instruments_total_for_nonpositive_maturity (log : ℚ → ℚ)
    (discount : DiscountFn) (T : ℚ) (hT : T ≤ 0) :
    (∃ v, LogDf.impliedRate log T discount = Except.ok v) ∧
    (∃ v, Fra.impliedRate log T discount = Except.ok v) ∧
    (∃ v, InstFwd.impliedRate log T discount = Except.ok v) ∧
    (∃ v, Swap.impliedRate T discount = Except.ok v) :=
  ⟨⟨_, rfl⟩, ⟨_, rfl⟩, ⟨_, rfl⟩, ⟨_, rfl⟩⟩

/-- Witness for the amended C5 at maturity `-1`. -/
theorem instruments_total_for_nonpositive_maturity_witness :
    ((-1 : ℚ) ≤ 0) ∧
    ((∃ v, LogDf.impliedRate (fun _ => 0) (-1) (fun _ => (1, fun _ => 0)) = Except.ok v) ∧
     (∃ v, Fra.impliedRate (fun _ => 0) (-1) (fun _ => (1, fun _ => 0)) = Except.ok v) ∧
     (∃ v, InstFwd.impliedRate (fun _ => 0) (-1) (fun _ => (1, fun _ => 0)) = Except.ok v) ∧
     (∃ v, Swap.impliedRate (-1) (fun _ => (1, fun _ => 0)) = Except.ok v)) :=
  ⟨by norm_num,
   instruments_total_for_nonpositive_maturity (fun _ => 0) (fun _ => (1, fun _ => 0))
     (-1) (by norm_num)⟩

/-! ## YieldCurveBuilder.ts: `fitYieldCurve`

The model interface: `discount` maps the current state vector to a discount
function carrying gradients with respect to the state; `constraints` and
`quadratic` are the optional members.  An instrument is any map from a
discount function to an implied rate plus gradient (the gradient array the
source preallocates is overwritten by the instrument, so the rate/gradient
pair is what matters).  The external library routine `numeric.solve` is a
parameter `solve`.  The mutable arrays of the source are threaded through a
`FitWorld`; each Newton iteration writes only the `state` field, matching the
source (its only in-place writes reach `model.state()`; `diff`, `C` and the
gradient buffers are freshly allocated each iteration). -/

abbrev InstrumentFn := (ℚ → ℚ × (ℕ → ℚ)) → ℚ × (ℕ → ℚ)

structure ModelE where
  discount : List ℚ → ℚ → ℚ × (ℕ → ℚ)
  constraints : Option (List (List ℚ) × List ℚ)
  quadratic : Option (List (List ℚ))

structure FitWorld where
  instruments : List InstrumentFn
  marketRates : List ℚ
  state : List ℚ

inductive RangeReason where
  | lengthMismatch      -- instruments and marketRates must have the same length
  | tooManyConstraints  -- there are more constraints than state variables
  | quadraticSize       -- quadratic matrix must have the same size as state vector
  | quadraticRequired   -- quadratic coefficients must be supplied
deriving DecidableEq

inductive FitError where
  | range (reason : RangeReason)  -- RangeError thrown by the precondition checks
  | convergence                   -- Newton method cannot find solution
deriving DecidableEq

/-- Source `Math.max.apply(null, diff.map(Math.abs))`, the convergence
measure.  The fold starts at 0 rather than the JavaScript `-Infinity`; the
entries are absolute values, so for the comparison against the positive
tolerance the two agree. -/
def maxAbs (l : List ℚ) : ℚ := l.foldl (fun m v => max m |v|) 0

/-- Source `numeric.dot` on two vectors. -/
def dotL (a b : List ℚ) : ℚ := (List.zipWith (· * ·) a b).sum

/-- Source `numeric.dot` on matrix and vector. -/
def matVec (H : List (List ℚ)) (s : List ℚ) : List ℚ := H.map (fun row => dotL row s)

/-- Source `numeric.addeq(state, delta)`: elementwise in-place addition over
the indices of `state` (reading `delta` out of range is modelled by the
default 0). -/
def addVec : List ℚ → List ℚ → List ℚ
  | [], _ => []
  | v :: s, delta => (v + delta.getD 0 0) :: addVec s delta.tail

/-- The implied rates of the instruments at state `s`:
`impliedRates[i] = instruments[i].impliedRate(discount)`. -/
def impliedRatesOf (model : ModelE) (instrs : List InstrumentFn) (s : List ℚ) : List ℚ :=
  instrs.map (fun f => (f (model.discount s)).1)

/-- The Jacobian rows `C[0..n-1]`: the gradient each instrument writes into
its out-parameter, materialised at the `p` state indices. -/
def jacobianOf (model : ModelE) (instrs : List InstrumentFn) (s : List ℚ) :
    List (List ℚ) :=
  instrs.map (fun f => (List.range s.length).map (f (model.discount s)).2)

/-- Source `maxDiff = max |marketRates - impliedRates|` at state `s`. -/
def residualOf (model : ModelE) (instrs : List InstrumentFn)
    (rates s : List ℚ) : ℚ :=
  maxAbs (List.zipWith (· - ·) rates (impliedRatesOf model instrs s))

/-- The augmented KKT matrix `CC` of the quadratic branch: zero matrix of
size `p + n + m`, block `[0..p-1]×[0..p-1]` set to `H`, rows `p..` of the
first `p` columns set to `C`, and columns `p..` of the first `p` rows set to
`Cᵀ`. -/
def kktMatrix (p nm : ℕ) (H C : List (List ℚ)) : List (List ℚ) :=
  (List.range (p + nm)).map (fun r =>
    (List.range (p + nm)).map (fun c =>
      if r < p then
        if c < p then (H.getD r []).getD c 0
        else (C.getD (c - p) []).getD r 0
      else if c < p then (C.getD (r - p) []).getD c 0
      else 0))

/-- One Newton iteration body of `fitYieldCurve` (everything after the
convergence check): assemble the Jacobian and residual, append the constraint
rows `P` with right-hand side `q[i] - dot(P[i], state)`, optionally build the
augmented KKT system with right-hand side `-H·state` prepended, solve, keep
the first `p` components, and add them onto the state. -/
def stepState (solve : List (List ℚ) → List ℚ → List ℚ) (model : ModelE)
    (instrs : List InstrumentFn) (rates : List ℚ) (s : List ℚ) : List ℚ :=
  let p := s.length
  let n := instrs.length
  let Cjac := jacobianOf model instrs s
  let b0 := List.zipWith (· - ·) rates (impliedRatesOf model instrs s)
  let pq := model.constraints.getD ([], [])
  let m := pq.2.length
  let Crows := Cjac ++ (List.range m).map (fun i => pq.1.getD i [])
  let bfull := b0 ++ (List.range m).map (fun i => pq.2.getD i 0 - dotL (pq.1.getD i []) s)
  let H := model.quadratic.getD []
  let delta :=
    if H.length > 0 then
      (solve (kktMatrix p (n + m) H Crows)
        ((matVec H s).map (fun v => -v) ++ bfull)).take p
    else (solve Crows bfull).take p
  addVec s delta

/-- The iteration loop of `fitYieldCurve` (`for iter = 1..100`), with
`first = true` on the first iteration: the convergence check is performed
only when `first = false`; when the fuel (remaining iterations) runs out the
source throws (`Newton method cannot find solution`).  Only the `state` field
of the world is ever written. -/
def fitGoW (solve : List (List ℚ) → List ℚ → List ℚ) (model : ModelE) :
    Bool → ℕ → FitWorld → FitWorld × Except FitError (List ℚ)
  | _, 0, w => (w, Except.error FitError.convergence)
  | first, fuel + 1, w =>
      if first = false ∧
          residualOf model w.instruments w.marketRates w.state < 1 / 100000000 then
        (w, Except.ok w.state)
      else
        fitGoW solve model false fuel
          { w with state := stepState solve model w.instruments w.marketRates w.state }

lemma fitGoW_succ (solve : List (List ℚ) → List ℚ → List ℚ) (model : ModelE)
    (first : Bool) (fuel : ℕ) (w : FitWorld) :
    fitGoW solve model first (fuel + 1) w =
      if first = false ∧
          residualOf model w.instruments w.marketRates w.state < 1 / 100000000 then
        (w, Except.ok w.state)
      else
        fitGoW solve model false fuel
          { w with state := stepState solve model w.instruments w.marketRates w.state } :=
  rfl

/-- Source `fitYieldCurve(model, instruments, marketRates)`: the four
precondition checks, in source order, each raising a `RangeError`, then the
Newton loop with at most 100 iterations.  On success the returned value is
the final state vector (the source returns the discount closure over exactly
this state). -/
def fitYieldCurveW (solve : List (List ℚ) → List ℚ → List ℚ) (model : ModelE)
    (w : FitWorld) : FitWorld × Except FitError (List ℚ) :=
  let p := w.state.length
  let n := w.instruments.length
  if n ≠ w.marketRates.length then
    (w, Except.error (FitError.range RangeReason.lengthMismatch))
  else
    let m := (model.constraints.getD ([], [])).2.length
    if n + m > p then
      (w, Except.error (FitError.range RangeReason.tooManyConstraints))
    else
      let Hlen := (model.quadratic.getD []).length
      if Hlen ≠ 0 ∧ Hlen ≠ p then
        (w, Except.error (FitError.range RangeReason.quadraticSize))
      else if n + m < p ∧ Hlen = 0 then
        (w, Except.error (FitError.range RangeReason.quadraticRequired))
      else
        fitGoW solve model true 100 w

lemma fitGoW_frame (solve : List (List ℚ) → List ℚ → List ℚ) (model : ModelE) :
    ∀ (fuel : ℕ) (first : Bool) (w : FitWorld),
      ((fitGoW solve model first fuel w).1).instruments = w.instruments ∧
      ((fitGoW solve model first fuel w).1).marketRates = w.marketRates := by
  intro fuel
  induction fuel with
  | zero => intro first w; exact ⟨rfl, rfl⟩
  | succ fuel ih =>
      intro first w
      rw [fitGoW_succ]
      by_cases h : first = false ∧
          residualOf model w.instruments w.marketRates w.state < 1 / 100000000
      · rw [if_pos h]; exact ⟨rfl, rfl⟩
      · rw [if_neg h]
        exact ih false
          { w with state := stepState solve model w.instruments w.marketRates w.state }

/-- C10.  `fitYieldCurve` leaves the caller's `instruments` and `marketRates`
arrays untouched on every path — precondition failure, convergence failure
and success alike; only the model's state vector is written. -/
theorem fitYieldCurve_frame (solve : List (List ℚ) → List ℚ → List ℚ)
    (model : ModelE) (w : FitWorld) :
    ((fitYieldCurveW solve model w).1).instruments = w.instruments ∧
    ((fitYieldCurveW solve model w).1).marketRates = w.marketRates := by
  unfold fitYieldCurveW
  dsimp only
  split_ifs with h1 h2 h3 h4
  · exact ⟨rfl, rfl⟩
  · exact ⟨rfl, rfl⟩
  · exact ⟨rfl, rfl⟩
  · exact ⟨rfl, rfl⟩
  · exact fitGoW_frame solve model 100 true w

lemma fitGoW_ok_of_false (solve : List (List ℚ) → List ℚ → List ℚ) (model : ModelE)
    (ins : List InstrumentFn) (rates : List ℚ) :
    ∀ (fuel : ℕ) (s s' : List ℚ),
      (fitGoW solve model false fuel ⟨ins, rates, s⟩).2 = Except.ok s' →
      ∃ j, j < fuel ∧ s' = (stepState solve model ins rates)^[j] s ∧
        residualOf model ins rates s' < 1 / 100000000 := by
  intro fuel
  induction fuel with
  | zero =>
      intro s s' h
      exact absurd h (by simp [fitGoW])
  | succ fuel ih =>
      intro s s' h
      rw [fitGoW_succ] at h
      by_cases hres : residualOf model ins rates s < 1 / 100000000
      · rw [if_pos ⟨rfl, hres⟩] at h
        have hs : s = s' := by simpa using h
        exact ⟨0, Nat.succ_pos fuel, hs.symm, hs ▸ hres⟩
      · have hcond : ¬((false = false) ∧
            residualOf model ins rates s < 1 / 100000000) := fun hc => hres hc.2
        rw [if_neg hcond] at h
        obtain ⟨j, hj, hiter, hres'⟩ :=
          ih (stepState solve model ins rates s) s' h
        refine ⟨j + 1, by omega, ?_, hres'⟩
        rw [Function.iterate_succ_apply]
        exact hiter

/-- C3.  Whenever `fitYieldCurve` returns successfully, the returned state is
the result of at least one (and at most 99) Newton updates applied to the
initial state — the convergence test is skipped on iteration 1 and, when it
passes, the tested state is returned with no further update — and the final
residual `max |marketRates - impliedRates|` is below `1e-8`. -/
theorem fitYieldCurve_no_first_iteration_exit (solve : List (List ℚ) → List ℚ → List ℚ)
    (model : ModelE) (ins : List InstrumentFn) (rates s0 s' : List ℚ)
    (hok : (fitYieldCurveW solve model ⟨ins, rates, s0⟩).2 = Except.ok s') :
    (∃ k, 1 ≤ k ∧ k ≤ 99 ∧ s' = (stepState solve model ins rates)^[k] s0) ∧
    residualOf model ins rates s' < 1 / 100000000 := by
  unfold fitYieldCurveW at hok
  dsimp only at hok
  split_ifs at hok with h1 h2 h3 h4
  rw [show (100 : ℕ) = 99 + 1 from rfl, fitGoW_succ,
    if_neg (fun hc => absurd hc.1 (by simp))] at hok
  obtain ⟨j, hj, hiter, hres⟩ := fitGoW_ok_of_false solve model ins rates 99
    (stepState solve model ins rates s0) s' hok
  refine ⟨⟨j + 1, by omega, by omega, ?_⟩, hres⟩
  rw [Function.iterate_succ_apply]
  exact hiter

/-- A concrete stand-in for the external `numeric.solve` used by the closed
instances below: it returns the right-hand side unchanged (exact for the
1-by-1 identity systems arising there). -/
def solveId : List (List ℚ) → List ℚ → List ℚ := fun _ b => b

/-- Concrete input for the C3 witness: one state variable, one instrument
reading the discount factor at `t = 1`, a model whose discount factor is the
state itself (gradient 1), market rate `1/2`. -/
def model3 : ModelE :=
  { discount := fun s _ => (s.getD 0 0, fun i => if i = 0 then 1 else 0)
    constraints := none
    quadratic := none }

def instr3 : InstrumentFn := fun d => d 1

/-- Witness for C3: on the concrete one-dimensional model the fit returns
`[1/2]` (after exactly one Newton update, at iteration 2). -/
theorem fitYieldCurve_no_first_iteration_exit_witness :
    ((fitYieldCurveW solveId model3 ⟨[instr3], [1 / 2], [0]⟩).2 = Except.ok [1 / 2]) ∧
    ((∃ k, 1 ≤ k ∧ k ≤ 99 ∧
        [1 / 2] = (stepState solveId model3 [instr3] [1 / 2])^[k] [0]) ∧
     residualOf model3 [instr3] [1 / 2] [1 / 2] < 1 / 100000000) := by
  have hstep : stepState solveId model3 [instr3] [1 / 2] [0] = [1 / 2] := by
    norm_num [stepState, jacobianOf, impliedRatesOf, model3, instr3, solveId,
      dotL, matVec, addVec, List.range_succ]
  have hres : residualOf model3 [instr3] [1 / 2] [1 / 2] < 1 / 100000000 := by
    norm_num [residualOf, maxAbs, impliedRatesOf, model3, instr3]
  have hfit : (fitYieldCurveW solveId model3 ⟨[instr3], [1 / 2], [0]⟩).2 =
      Except.ok [1 / 2] := by
    unfold fitYieldCurveW
    dsimp only
    rw [if_neg (by norm_num), if_neg (by norm_num [model3]),
      if_neg (by norm_num [model3]), if_neg (by norm_num [model3]),
      show (100 : ℕ) = 99 + 1 from rfl, fitGoW_succ,
      if_neg (fun hc => absurd hc.1 (by simp))]
    dsimp only
    rw [hstep, show (99 : ℕ) = 98 + 1 from rfl, fitGoW_succ, if_pos ⟨rfl, hres⟩]
  exact ⟨hfit,
    fitYieldCurve_no_first_iteration_exit solveId model3 [instr3] [1 / 2] [0] [1 / 2] hfit⟩

/-- Helper for the C4 results: recognising a raised `RangeError`. -/
def isRangeError : Except FitError (List ℚ) → Bool
  | Except.error (FitError.range _) => true
  | _ => false

lemma fitGoW_not_range (solve : List (List ℚ) → List ℚ → List ℚ) (model : ModelE) :
    ∀ (fuel : ℕ) (first : Bool) (w : FitWorld),
      isRangeError (fitGoW solve model first fuel w).2 = false := by
  intro fuel
  induction fuel with
  | zero => intro first w; rfl
  | succ fuel ih =>
      intro first w
      rw [fitGoW_succ]
      by_cases h : first = false ∧
          residualOf model w.instruments w.marketRates w.state < 1 / 100000000
      · rw [if_pos h]; rfl
      · rw [if_neg h]
        exact ih false _

/-- C4 (amended).  `fitYieldCurve` raises a `RangeError` — before any Newton
iteration, with the world unchanged — exactly when: the instrument count
differs from the market-rate count; or `n + m > p`; or the supplied quadratic
matrix has a row count that is neither 0 nor `p` (row widths are never
checked); or `n + m < p` while no quadratic matrix is supplied (an empty one
counts as absent). -/
theorem fitYieldCurve_rangeError_iff (solve : List (List ℚ) → List ℚ → List ℚ)
    (model : ModelE) (w : FitWorld) :
    (∃ e, (fitYieldCurveW solve model w).2 = Except.error (FitError.range e) ∧
      (fitYieldCurveW solve model w).1 = w) ↔
    (w.instruments.length ≠ w.marketRates.length ∨
     w.instruments.length + (model.constraints.getD ([], [])).2.length > w.state.length ∨
     ((model.quadratic.getD []).length ≠ 0 ∧
      (model.quadratic.getD []).length ≠ w.state.length) ∨
     (w.instruments.length + (model.constraints.getD ([], [])).2.length < w.state.length ∧
      (model.quadratic.getD []).length = 0)) := by
  unfold fitYieldCurveW
  dsimp only
  split_ifs with h1 h2 h3 h4
  · exact ⟨fun _ => Or.inl h1, fun _ => ⟨RangeReason.lengthMismatch, rfl, rfl⟩⟩
  · exact ⟨fun _ => Or.inr (Or.inl h2), fun _ => ⟨RangeReason.tooManyConstraints, rfl, rfl⟩⟩
  · exact ⟨fun _ => Or.inr (Or.inr (Or.inl h3)),
      fun _ => ⟨RangeReason.quadraticSize, rfl, rfl⟩⟩
  · exact ⟨fun _ => Or.inr (Or.inr (Or.inr h4)),
      fun _ => ⟨RangeReason.quadraticRequired, rfl, rfl⟩⟩
  · constructor
    · rintro ⟨e, he, -⟩
      have hnr := fitGoW_not_range solve model 100 true w
      rw [he] at hnr
      exact absurd hnr (by simp [isRangeError])
    · rintro (h | h | h | h)
      · exact absurd h h1
      · exact absurd h h2
      · exact absurd h h3
      · exact absurd h h4

/-- Concrete input for the C4 counterexample: one constant instrument, two
state variables, and a supplied quadratic matrix with 2 rows of width 1. -/
def model4 : ModelE :=
  { discount := fun _ _ => (0, fun _ => 0)
    constraints := none
    quadratic := some [[1], [1]] }

def instr4 : InstrumentFn := fun _ => (0, fun i => if i = 0 then 1 else 0)

/-- C4 counterexample.  The quadratic matrix `[[1],[1]]` is supplied and is
not of size `p × p = 2 × 2` (its first row has width 1), yet `fitYieldCurve`
raises no `RangeError`: only the row count is checked, so the Newton loop is
entered. -/
theorem fitYieldCurve_quadratic_width_unchecked_cx :
    ((model4.quadratic.getD []).getD 0 []).length = 1 ∧
    ([instr4].length + (model4.constraints.getD ([], [])).2.length <
      ([(0 : ℚ), 0] : List ℚ).length → True) ∧
    isRangeError (fitYieldCurveW solveId model4 ⟨[instr4], [0], [0, 0]⟩).2 = false := by
  refine ⟨rfl, fun _ => trivial, ?_⟩
  unfold fitYieldCurveW
  rw [if_neg (by norm_num), if_neg (by norm_num [model4]), if_neg (by norm_num [model4]),
    if_neg (by norm_num [model4])]
  exact fitGoW_not_range solveId model4 100 true _

/-! ## YieldCurveBuilder.ts: `calibrateYieldCurveModel`

The inner pipeline "create a fresh model from the template and fit it to every
historical date" involves the transcendental discount functions and the
external solver, so it is abstracted as a parameter
`fitStates : covariance ↦ state history` (one state-vector row per historical
date); everything after it — `diff`, `covariance`, the `×250` annualisation,
the tolerance comparison and the covariance overwrite — is embedded from the
source.  The outer loop is `for (iter = 1; iter < 10; iter++)`, i.e. at most
9 iterations, but the body ends in `return` after the covariance update,
marked `// Temporary hack: do 1 iteration only.` in the source. -/

inductive CalibError where
  | range        -- instruments must match marketRates in size
  | convergence  -- calibration failed to converge
deriving DecidableEq

/-- Wraps a fully numeric table into `Option` cells (every entry finite). -/
def optTable (t : List (List ℚ)) : Table := t.map (fun r => r.map some)

/-- Source: `stateDiff = diff(stateHistory); covar = covariance(stateDiff);
numeric.muleq(covar, 250)`. -/
def realizedCovar (stateHistory : List (List ℚ)) : ℕ → ℕ → ℚ :=
  fun i j => 250 * covariance (optTable (diffTable stateHistory)) i j

/-- Source: `maxDiff = max over i, j < nf of |covar[i][j] - modelCovar[i][j]|`
(the fold starts at 0 rather than `-Infinity`; all entries are absolute
values, so the comparison with the positive tolerance agrees). -/
def calibMaxDiff (cov : List (List ℚ)) (realized : ℕ → ℕ → ℚ) : ℚ :=
  ((List.range cov.length).flatMap (fun i =>
    (List.range cov.length).map (fun j =>
      |realized i j - (cov.getD i []).getD j 0|))).foldl max 0

/-- Source: `modelCovar[i][j] = covar[i][j]` for all `i, j < nf`. -/
def covUpdate (cov : List (List ℚ)) (realized : ℕ → ℕ → ℚ) : List (List ℚ) :=
  cov.mapIdx (fun i row => row.mapIdx (fun j v =>
    if j < cov.length then realized i j else v))

/-- Source `calibrateYieldCurveModel(modelTemplate, instruments, marketRates)`
with the fitting pipeline abstracted as `fitStates`.  The returned matrix is
the template's covariance when the function returns (the source mutates it in
place and returns `void`).  The body executes exactly one outer iteration: if
the tolerance check fails it overwrites the covariance and then hits
`// Temporary hack: do 1 iteration only.` — `return;` — instead of looping. -/
def calibrateYieldCurveModel (numSeries numInstruments : ℕ)
    (fitStates : List (List ℚ) → List (List ℚ)) (cov : List (List ℚ)) :
    Except CalibError (List (List ℚ)) :=
  if numSeries ≠ numInstruments then Except.error CalibError.range
  else
    let realized := realizedCovar (fitStates cov)
    if calibMaxDiff cov realized < 1 / 1000000 then Except.ok cov
    else Except.ok (covUpdate cov realized)

/-- Modelled from the spec (claim C1): the calibration loop as documented —
repeat up to the iteration cap (`iter < 10`, i.e. 9 iterations): refit,
compare the annualised realized covariance with the structural covariance,
stop when the maximum absolute entrywise difference is below `1e-6`,
otherwise overwrite the structural covariance and repeat; on cap exhaustion
fail with a `ConvergenceError`. -/
def calibrateLoopClaim (fitStates : List (List ℚ) → List (List ℚ)) :
    ℕ → List (List ℚ) → Except CalibError (List (List ℚ))
  | 0, _ => Except.error CalibError.convergence
  | fuel + 1, cov =>
      let realized := realizedCovar (fitStates cov)
      if calibMaxDiff cov realized < 1 / 1000000 then Except.ok cov
      else calibrateLoopClaim fitStates fuel (covUpdate cov realized)

lemma calibrateLoopClaim_succ (fitStates : List (List ℚ) → List (List ℚ))
    (fuel : ℕ) (cov : List (List ℚ)) :
    calibrateLoopClaim fitStates (fuel + 1) cov =
      if calibMaxDiff cov (realizedCovar (fitStates cov)) < 1 / 1000000 then
        Except.ok cov
      else calibrateLoopClaim fitStates fuel
        (covUpdate cov (realizedCovar (fitStates cov))) :=
  rfl

/-- Concrete fitting pipeline for the C1 result: the state history depends on
the current structural covariance through its `(0,1)` entry, so that the
realized covariance is `[[500, (c+2)/2], [(c+2)/2, (c+2)²/2000]]` when the
structural one has off-diagonal entry `c` — a contraction towards
off-diagonal 2 that halves the mismatch each round and therefore cannot get
below `1e-6` within 9 rounds. -/
def fitStatesEx (cov : List (List ℚ)) : List (List ℚ) :=
  [[0, 0], [2, 0], [(cov.getD 0 []).getD 1 0 / 500 + 2 + 1 / 250, 0]]

def cov0Ex : List (List ℚ) := [[500, 0], [0, 1 / 500]]

lemma getD_lit_zero {α : Type} (x : α) (l : List α) (d : α) : (x :: l).getD 0 d = x := rfl

lemma getD_lit_one {α : Type} (x y : α) (l : List α) (d : α) : (x :: y :: l).getD 1 d = y := rfl

lemma getD_lit_two {α : Type} (x y z : α) (l : List α) (d : α) :
    (x :: y :: z :: l).getD 2 d = z := rfl

lemma getElemq_lit_zero {α : Type} (x : α) (l : List α) : (x :: l)[0]? = some x :=
  List.getElem?_cons_zero

lemma getElemq_lit_one {α : Type} (x y : α) (l : List α) : (x :: y :: l)[1]? = some y := by
  rw [show (1 : ℕ) = 0 + 1 from rfl, List.getElem?_cons_succ, List.getElem?_cons_zero]

lemma getElemq_lit_two {α : Type} (x y z : α) (l : List α) :
    (x :: y :: z :: l)[2]? = some z := by
  rw [show (2 : ℕ) = 1 + 1 from rfl, List.getElem?_cons_succ]
  exact getElemq_lit_one y z l

lemma getElem_lit_zero {α : Type} (x : α) (l : List α) (h : 0 < (x :: l).length) :
    (x :: l)[0] = x := rfl

lemma getElem_lit_one {α : Type} (x y : α) (l : List α) (h : 1 < (x :: y :: l).length) :
    (x :: y :: l)[1] = y := rfl

lemma getElem_lit_two {α : Type} (x y z : α) (l : List α)
    (h : 2 < (x :: y :: z :: l).length) : (x :: y :: z :: l)[2] = z := rfl

lemma calibMaxDiff_ex (a c d e : ℚ) :
    calibMaxDiff [[a, c], [d, e]] (realizedCovar (fitStatesEx [[a, c], [d, e]])) =
      max (max (max (max 0 |500 - a|) |(c + 2) / 2 - c|) |(c + 2) / 2 - d|)
        |(c + 2) ^ 2 / 2000 - e| := by
  norm_num [calibMaxDiff, realizedCovar, fitStatesEx, diffTable, optTable,
    covariance, covPairList, covWrite, covPair, covStats, numColsT, numRowsT,
    tableCell, List.range_succ, getD_lit_zero, getD_lit_one, getD_lit_two,
    getElemq_lit_zero, getElemq_lit_one, getElemq_lit_two,
    getElem_lit_zero, getElem_lit_one, getElem_lit_two]
  ring_nf

lemma covUpdate_ex (a c d e : ℚ) :
    covUpdate [[a, c], [d, e]] (realizedCovar (fitStatesEx [[a, c], [d, e]])) =
      [[500, (c + 2) / 2], [(c + 2) / 2, (c + 2) ^ 2 / 2000]] := by
  norm_num [covUpdate, realizedCovar, fitStatesEx, diffTable, optTable,
    covariance, covPairList, covWrite, covPair, covStats, numColsT, numRowsT,
    tableCell, List.range_succ, getD_lit_zero, getD_lit_one, getD_lit_two,
    getElemq_lit_zero, getElemq_lit_one, getElemq_lit_two,
    getElem_lit_zero, getElem_lit_one, getElem_lit_two, List.mapIdx_cons,
    List.mapIdx_nil]
  ring_nf
  exact ⟨trivial, trivial⟩

lemma calibMaxDiff_ex_ge (a c d e : ℚ) :
    |(c + 2) / 2 - c| ≤
      calibMaxDiff [[a, c], [d, e]] (realizedCovar (fitStatesEx [[a, c], [d, e]])) := by
  rw [calibMaxDiff_ex]
  exact le_trans (le_max_right _ _) (le_trans (le_max_left _ _) (le_max_left _ _))

lemma calib_claim_diverges :
    ∀ (fuel : ℕ) (c e : ℚ),
      (1 : ℚ) / 1000000 * 2 ^ fuel ≤ |(c + 2) / 2 - c| →
      calibrateLoopClaim fitStatesEx fuel [[500, c], [c, e]] =
        Except.error CalibError.convergence := by
  intro fuel
  induction fuel with
  | zero => intro c e _; rfl
  | succ fuel ih =>
      intro c e h
      have hpow : (1 : ℚ) ≤ 2 ^ (fuel + 1) := one_le_pow₀ (by norm_num)
      have htol : (1 : ℚ) / 1000000 ≤ |(c + 2) / 2 - c| := by nlinarith
      have hge := calibMaxDiff_ex_ge 500 c c e
      rw [calibrateLoopClaim_succ, if_neg (by linarith), covUpdate_ex]
      apply ih
      have habs : |((c + 2) / 2 + 2) / 2 - (c + 2) / 2| = |(c + 2) / 2 - c| / 2 := by
        have hr : ((c + 2) / 2 + 2) / 2 - (c + 2) / 2 = ((c + 2) / 2 - c) / 2 := by ring
        rw [hr, abs_div, abs_two]
      rw [habs]
      have hp2 : (2 : ℚ) ^ (fuel + 1) = 2 * 2 ^ fuel := by ring
      rw [hp2] at h
      linarith

/-- C1.  On a concrete fitting pipeline whose realized covariance never comes
within `1e-6` of the structural covariance inside the 9-iteration cap, the
implemented `calibrateYieldCurveModel` nevertheless returns successfully
after a single outer iteration (having overwritten the covariance once) —
the source's `Temporary hack: do 1 iteration only` — whereas the documented
loop would exhaust its cap and fail with a `ConvergenceError`. -/
theorem calibrate_one_iteration_hack :
    calibrateYieldCurveModel 2 2 fitStatesEx cov0Ex =
      Except.ok [[500, 1], [1, 1 / 500]] ∧
    calibrateLoopClaim fitStatesEx 9 cov0Ex = Except.error CalibError.convergence := by
  constructor
  · unfold calibrateYieldCurveModel
    dsimp only
    rw [if_neg (by norm_num), show cov0Ex = [[500, (0 : ℚ)], [0, 1 / 500]] from rfl,
      if_neg (by
        have hge := calibMaxDiff_ex_ge 500 0 0 (1 / 500)
        intro hlt
        rw [show |((0 : ℚ) + 2) / 2 - 0| = 1 by norm_num] at hge
        linarith),
      covUpdate_ex]
    norm_num
  · rw [show cov0Ex = [[500, (0 : ℚ)], [0, 1 / 500]] from rfl]
    apply calib_claim_diverges 9 0 (1 / 500)
    norm_num

end YieldCurve
